import Mathlib

/-!
# Transparent Notes: note store and screen-share monitor of `src/App.js`

A shallow embedding of the React component `App`.  The component state
(`useState` cells), the browser's `localStorage` and the handlers registered on
capture tracks are gathered in one record, `AppState`; every handler and every
effect of the component is a function on that record.

Inputs that come from the platform are explicit arguments:

* `Date.now()` and `new Date().toLocaleString()` are the arguments `now` and
  `stamp` of `saveNote`;
* the answer of `window.confirm` is the argument `confirmed`;
* the outcome of `navigator.mediaDevices.getDisplayMedia` is an
  `Option (List Nat)`: `some tracks` when a stream is granted (tracks are named
  by numbers), `none` when the promise is rejected;
* `JSON.stringify` and `JSON.parse` are the two fields of `JsonApi`; the
  theorems hold for every such pair, and `json` is a concrete one, writing the
  text a browser writes for an array of notes, used in the closed examples.

JavaScript strings are modelled by `String` (sequences of Unicode scalar
values; lone surrogates are not represented).  `savedNotes` is a `List Note`:
stored texts that `JSON.parse` accepts but that are not arrays of notes are
outside the model.
-/

namespace TransparentNotes

/-! ## Data model -/

/-- A saved note, `{ id, content, timestamp }` as built in `saveNote`. -/
structure Note where
  id : Nat
  content : String
  timestamp : String
deriving DecidableEq, Repr

/-- The browser's `localStorage`: a value per key, `none` when the key is absent. -/
abbrev Storage := String → Option String

/-- `localStorage.getItem(k)`; `none` is JavaScript's `null`. -/
def getItem (s : Storage) (k : String) : Option String := s k

/-- `localStorage.setItem(k, v)`. -/
def setItem (s : Storage) (k v : String) : Storage :=
  fun j => if j = k then some v else s j

/-- `localStorage.removeItem(k)`. -/
def removeItem (s : Storage) (k : String) : Storage :=
  fun j => if j = k then none else s j

/-- The storage with no key at all. -/
def emptyStorage : Storage := fun _ => none

/-- The platform's `JSON` object, restricted to the values the component
passes through it: arrays of notes.  `parse` answers `Except.error` where
`JSON.parse` throws. -/
structure JsonApi where
  stringify : List Note → String
  parse : String → Except String (List Note)

/-- Which of the two `track.onended` closures of the component is installed on a
track: the one of `checkScreenSharing` (startup probe) or the one of
`startScreenShareDetection` (the Detect button). -/
inductive EndedHandler where
  | probe
  | detect
deriving DecidableEq, Repr

/-- The state of the running component together with the platform state it
reads and writes. -/
structure AppState where
  /-- `notes`, the draft shown in the textarea. -/
  notes : String
  /-- `isSharingScreen`. -/
  isSharingScreen : Bool
  /-- `savedNotes`. -/
  savedNotes : List Note
  /-- `isVisibleToUser`. -/
  isVisibleToUser : Bool
  /-- `localStorage`. -/
  storage : Storage
  /-- True when `setSavedNotes` was called since the last render: React then
  runs the effect that depends on `[savedNotes]` after the next render. -/
  savedNotesSet : Bool
  /-- The variable `stream` of the screen-sharing effect. -/
  stream : Option (List Nat)
  /-- The `onended` property of each capture track. -/
  onended : Nat → Option EndedHandler

/-- The component at its first render, over a given `localStorage`:
`useState('')`, `useState(false)`, `useState([])`, `useState(true)`. -/
def initial (storage : Storage) : AppState where
  notes := ""
  isSharingScreen := false
  savedNotes := []
  isVisibleToUser := true
  storage := storage
  savedNotesSet := false
  stream := none
  onended := fun _ => none

/-! ## JavaScript strings -/

/-- JavaScript truthiness of a string: every string but the empty one. -/
def truthy (s : String) : Bool := !s.data.isEmpty

/-- The code points removed by `String.prototype.trim`: ECMAScript `WhiteSpace`
and `LineTerminator`. -/
def isWhiteSpace (c : Char) : Bool :=
  let n := c.toNat
  n == 0x09 || n == 0x0A || n == 0x0B || n == 0x0C || n == 0x0D || n == 0x20 ||
  n == 0xA0 || n == 0x1680 || (0x2000 ≤ n && n ≤ 0x200A) || n == 0x2028 ||
  n == 0x2029 || n == 0x202F || n == 0x205F || n == 0x3000 || n == 0xFEFF

/-- `s.trim()`: white space removed from both ends. -/
def trim (s : String) : String :=
  ⟨((s.data.dropWhile isWhiteSpace).reverse.dropWhile isWhiteSpace).reverse⟩

/-- A draft that is empty or consists only of white space (the wording of the
specification, not of the code). -/
def isBlank (s : String) : Bool := s.data.all isWhiteSpace

/-! ## State setters -/

/-- `setNotes(text)`. -/
def setNotes (text : String) (w : AppState) : AppState :=
  { w with notes := text }

/-- `setSavedNotes(list)`: the new array is a new dependency value for the
persistence effect. -/
def setSavedNotes (list : List Note) (w : AppState) : AppState :=
  { w with savedNotes := list, savedNotesSet := true }

/-! ## Effects -/

/-- First half of the mount effect "Load saved notes from localStorage"
(lines 13-20): the saved-notes key is read and parsed inside `try`/`catch`; the
catch branch logs the error and changes no state. -/
def loadSavedNotes (J : JsonApi) (w : AppState) : Except String AppState :=
  match getItem w.storage "transparentNotes" with
  | some saved =>
    if truthy saved then
      tryCatch (do
        let parsed ← J.parse saved
        pure (setSavedNotes parsed w))
        (fun _ => pure w)
    else pure w
  | none => pure w

/-- Second half of the mount effect (lines 22-25): the draft key is read. -/
def loadLastNote (w : AppState) : AppState :=
  match getItem w.storage "lastNote" with
  | some lastNote => if truthy lastNote then setNotes lastNote w else w
  | none => w

/-- The mount effect "Load saved notes from localStorage" (lines 12-26).
The result is `Except.ok` unless an exception escapes the effect. -/
def loadEffect (J : JsonApi) (w : AppState) : Except String AppState := do
  let w1 ← loadSavedNotes J w
  pure (loadLastNote w1)

/-- The effect "Save notes to localStorage when they change" (lines 29-33). -/
def persistEffect (J : JsonApi) (w : AppState) : AppState :=
  if w.savedNotes.length > 0 then
    { w with storage := setItem w.storage "transparentNotes" (J.stringify w.savedNotes) }
  else w

/-- The render that follows a handler: the persistence effect runs when
`setSavedNotes` was called, and not otherwise. -/
def rerender (J : JsonApi) (w : AppState) : AppState :=
  if w.savedNotesSet then { persistEffect J w with savedNotesSet := false } else w

/-! ## Handlers of the note store -/

/-- The handler `saveNote` (lines 72-92); the change of the button label is
presentation and is left out. -/
def saveNote (now : Nat) (stamp : String) (w : AppState) : AppState :=
  if truthy (trim w.notes) then
    let newNote : Note := { id := now, content := w.notes, timestamp := stamp }
    let updatedNotes := newNote :: w.savedNotes.take 9
    let w1 := setSavedNotes updatedNotes w
    { w1 with storage := setItem w1.storage "lastNote" w.notes }
  else w

/-- The handler `loadNote` (lines 94-99); the focus request is left out. -/
def loadNote (content : String) (w : AppState) : AppState :=
  setNotes content w

/-- The handler `clearNotes` (lines 101-106). -/
def clearNotes (confirmed : Bool) (w : AppState) : AppState :=
  if confirmed then
    let w1 := setNotes "" w
    { w1 with storage := removeItem w1.storage "lastNote" }
  else w

/-- The handler `clearAllSaved` (lines 108-113). -/
def clearAllSaved (confirmed : Bool) (w : AppState) : AppState :=
  if confirmed then
    let w1 := setSavedNotes [] w
    { w1 with storage := removeItem w1.storage "transparentNotes" }
  else w

/-- The handler `onChange` of the textarea (lines 166-169). -/
def onChange (value : String) (w : AppState) : AppState :=
  let w1 := setNotes value w
  { w1 with storage := setItem w1.storage "lastNote" value }

/-- The handler `toggleVisibility` (lines 126-128). -/
def toggleVisibility (w : AppState) : AppState :=
  { w with isVisibleToUser := !w.isVisibleToUser }

/-- The click on the Load button of a rendered note (line 202):
`loadNote(note.content)`. -/
def clickLoad (note : Note) (w : AppState) : AppState :=
  loadNote note.content w

/-! ## Operations of the specification, as the component performs them -/

/-- `saveNotes(list)` of the specification: the persistence effect run in a
render whose `savedNotes` is `list`. -/
def saveNotes (J : JsonApi) (list : List Note) (w : AppState) : AppState :=
  persistEffect J { w with savedNotes := list }

/-- `loadNotes()` of the specification: the list held by the component after the
mount effect has run over the given storage. -/
def loadNotes (J : JsonApi) (storage : Storage) : Except String (List Note) :=
  (loadEffect J (initial storage)).map (fun w => w.savedNotes)

/-- `loadDraft()` at startup: the draft held by the component after the mount
effect has run over the given storage. -/
def loadDraft (J : JsonApi) (storage : Storage) : Except String String :=
  (loadEffect J (initial storage)).map (fun w => w.notes)

/-- The persisted draft, an absent key counting as the empty text. -/
def persistedDraft (w : AppState) : String :=
  (getItem w.storage "lastNote").getD ""

/-- One save by the user: the draft is typed, then Save is clicked. -/
structure SaveStep where
  draft : String
  now : Nat
  stamp : String
deriving DecidableEq, Repr

/-- The note that `saveNote` builds at a step. -/
def SaveStep.note (s : SaveStep) : Note :=
  { id := s.now, content := s.draft, timestamp := s.stamp }

/-- The user types `s.draft` and clicks Save, each event followed by its render. -/
def saveStep (J : JsonApi) (w : AppState) (s : SaveStep) : AppState :=
  rerender J (saveNote s.now s.stamp (rerender J (onChange s.draft w)))

/-- A sequence of saves, in order. -/
def runSaves (J : JsonApi) (steps : List SaveStep) (w : AppState) : AppState :=
  steps.foldl (saveStep J) w

/-! ## Screen-sharing monitor -/

/-- The async function `checkScreenSharing` of the mount effect (lines 39-59),
resumed with the outcome of `getDisplayMedia`. -/
def checkScreenSharing (outcome : Option (List Nat)) (w : AppState) : AppState :=
  match outcome with
  | some tracks =>
    { w with
      stream := some tracks
      isSharingScreen := true
      onended := fun t => if t ∈ tracks then some EndedHandler.probe else w.onended t }
  | none => { w with isSharingScreen := false }

/-- The handler `startScreenShareDetection` (lines 130-145), resumed with the
outcome of `getDisplayMedia`; the `alert` of the catch branch shows a message
and changes no state. -/
def startScreenShareDetection (outcome : Option (List Nat)) (w : AppState) : AppState :=
  match outcome with
  | some tracks =>
    { w with
      isSharingScreen := true
      onended := fun t => if t ∈ tracks then some EndedHandler.detect else w.onended t }
  | none => w

/-- The platform fires `ended` on track `t`: the installed closure runs. -/
def trackEnded (t : Nat) (w : AppState) : AppState :=
  match w.onended t with
  | some EndedHandler.probe => { w with isSharingScreen := false, stream := none }
  | some EndedHandler.detect => { w with isSharingScreen := false }
  | none => w

/-- A run of `ended` events, in order. -/
def tracksEnded (ts : List Nat) (w : AppState) : AppState :=
  ts.foldl (fun v t => trackEnded t v) w

/-! ## A concrete `JSON` for closed examples

`JSON.stringify` on an array of notes, and a reader for the texts it writes
(compact arrays of `{"id":…,"content":…,"timestamp":…}` objects).  The reader
is not a full JSON parser: it reads back every text `stringifyNotes` writes
(`parseNotes_stringifyNotes`) and is evaluated only on the texts of the closed
examples; it rejects JSON in any other layout and does not check every rule of
the JSON grammar (a number with leading zeros is read). -/

/-- The double quote. -/
def dquote : Char := Char.ofNat 34

/-- The backslash. -/
def bslash : Char := Char.ofNat 92

/-- A lower-case hexadecimal digit. -/
def hexDigit (n : Nat) : Char :=
  Char.ofNat (if n < 10 then 48 + n else 87 + n)

/-- The value of a hexadecimal digit. -/
def hexValue (c : Char) : Option Nat :=
  let n := c.toNat
  if 48 ≤ n ∧ n ≤ 57 then some (n - 48)
  else if 97 ≤ n ∧ n ≤ 102 then some (n - 87)
  else if 65 ≤ n ∧ n ≤ 70 then some (n - 55)
  else none

/-- `QuoteJSONString` on one code point. -/
def quoteChar (c : Char) : List Char :=
  if c = dquote then [bslash, dquote]
  else if c = bslash then [bslash, bslash]
  else if c.toNat = 8 then [bslash, 'b']
  else if c.toNat = 9 then [bslash, 't']
  else if c.toNat = 10 then [bslash, 'n']
  else if c.toNat = 12 then [bslash, 'f']
  else if c.toNat = 13 then [bslash, 'r']
  else if c.toNat < 32 then
    [bslash, 'u', '0', '0', hexDigit (c.toNat / 16), hexDigit (c.toNat % 16)]
  else [c]

/-- `QuoteJSONString`: the text between double quotes, escaped. -/
def quoteString (s : String) : List Char :=
  dquote :: (s.data.flatMap quoteChar ++ [dquote])

/-- The text of one note object. -/
def noteText (n : Note) : List Char :=
  "\x7b\"id\":".data ++ (Nat.toDigits 10 n.id ++ (",\"content\":".data ++
    (quoteString n.content ++ (",\"timestamp\":".data ++
      (quoteString n.timestamp ++ "\x7d".data)))))

/-- The text of an array after its first note: each further note behind a
comma, then the closing bracket. -/
def moreText : List Note → List Char
  | [] => [']']
  | n :: rest => ',' :: (noteText n ++ moreText rest)

/-- `JSON.stringify(list)` for an array of notes. -/
def stringifyNotes (list : List Note) : String :=
  match list with
  | [] => ⟨['[', ']']⟩
  | n :: rest => ⟨'[' :: (noteText n ++ moreText rest)⟩

/-- Reads a literal at the head of the input. -/
def expect : List Char → List Char → Option (List Char)
  | [], cs => some cs
  | _ :: _, [] => none
  | l :: ls, c :: cs => if l = c then expect ls cs else none

/-- Reads a string body up to its closing quote, undoing the escapes. -/
def readChars : List Char → List Char → Option (List Char × List Char)
  | _, [] => none
  | acc, c :: cs =>
    if c = dquote then some (acc.reverse, cs)
    else if c = bslash then
      match cs with
      | [] => none
      | e :: rest =>
        if e = dquote then readChars (dquote :: acc) rest
        else if e = bslash then readChars (bslash :: acc) rest
        else if e = '/' then readChars ('/' :: acc) rest
        else if e = 'b' then readChars (Char.ofNat 8 :: acc) rest
        else if e = 't' then readChars (Char.ofNat 9 :: acc) rest
        else if e = 'n' then readChars (Char.ofNat 10 :: acc) rest
        else if e = 'f' then readChars (Char.ofNat 12 :: acc) rest
        else if e = 'r' then readChars (Char.ofNat 13 :: acc) rest
        else if e = 'u' then
          match rest with
          | a :: b :: c :: d :: rest4 =>
            match hexValue a, hexValue b, hexValue c, hexValue d with
            | some x, some y, some z, some v =>
              readChars (Char.ofNat (((x * 16 + y) * 16 + z) * 16 + v) :: acc) rest4
            | _, _, _, _ => none
          | _ => none
        else none
    else if c.toNat < 32 then none
    else readChars (c :: acc) cs

/-- Reads a quoted string. -/
def readString (cs : List Char) : Option (String × List Char) :=
  match cs with
  | [] => none
  | q :: rest =>
    if q = dquote then (readChars [] rest).map (fun r => (String.mk r.1, r.2)) else none

/-- Reads the decimal digits at the head of the input; at least one is required. -/
def readNat (cs : List Char) : Option (Nat × List Char) :=
  let ds := cs.takeWhile Char.isDigit
  if ds.isEmpty then none
  else some (ds.foldl (fun n d => 10 * n + (d.toNat - 48)) 0, cs.dropWhile Char.isDigit)

/-- Reads one note object. -/
def readNote (cs : List Char) : Option (Note × List Char) := do
  let cs ← expect "\x7b\"id\":".data cs
  let (id, cs) ← readNat cs
  let cs ← expect ",\"content\":".data cs
  let (content, cs) ← readString cs
  let cs ← expect ",\"timestamp\":".data cs
  let (timestamp, cs) ← readString cs
  let cs ← expect "\x7d".data cs
  pure ({ id := id, content := content, timestamp := timestamp }, cs)

/-- Reads the notes of an array after the first, up to the closing bracket. -/
def readMore : Nat → List Char → Option (List Note)
  | 0, _ => none
  | _ + 1, [] => none
  | fuel + 1, c :: cs =>
    if c = ']' then (if cs.isEmpty then some [] else none)
    else if c = ',' then
      match readNote cs with
      | some (n, rest) => (readMore fuel rest).map (fun ns => n :: ns)
      | none => none
    else none

/-- Reads a whole array of notes. -/
def readNotes (cs : List Char) : Option (List Note) :=
  match cs with
  | '[' :: ']' :: [] => some []
  | '[' :: rest =>
    match readNote rest with
    | some (n, rest1) => (readMore rest1.length rest1).map (fun ns => n :: ns)
    | none => none
  | _ => none

/-- `JSON.parse(text)` for the texts of `stringifyNotes`; an error stands for the
exception `JSON.parse` throws. -/
def parseNotes (text : String) : Except String (List Note) :=
  match readNotes text.data with
  | some ns => Except.ok ns
  | none => Except.error "Unexpected token"

/-- The concrete `JSON` of the closed examples. -/
def json : JsonApi where
  stringify := stringifyNotes
  parse := parseNotes

/-! ## Concrete inputs -/

/-- A note saved earlier. -/
def agendaNote : Note :=
  { id := 1700000000000, content := "meeting agenda", timestamp := "11/14/2023, 10:13:20 PM" }

/-- Eleven saves with the drafts `"d1"` to `"d11"`. -/
def elevenSaves : List SaveStep :=
  (List.range 11).map fun i =>
    { draft := "d" ++ toString (i + 1), now := 1700000000000 + i, stamp := "t" ++ toString (i + 1) }

/-- Twelve notes, as a hand-edited storage may hold them. -/
def twelveNotes : List Note :=
  (List.range 12).map fun i => { id := i, content := "old", timestamp := "t" }

/-- A component holding twelve notes and the draft `"x"`. -/
def crowded : AppState :=
  { initial emptyStorage with notes := "x", savedNotes := twelveNotes }

/-- The component after "meeting agenda" was typed and saved and the textarea
was emptied again. -/
def afterAgenda : AppState :=
  rerender json (onChange "" (saveStep json (initial emptyStorage)
    { draft := "meeting agenda", now := 1700000000000, stamp := "11/14/2023, 10:13:20 PM" }))

/-- A storage whose saved-notes key holds one note. -/
def oneNoteStorage : Storage :=
  setItem emptyStorage "transparentNotes" (stringifyNotes [agendaNote])

/-- A storage whose saved-notes key holds the text of the empty array. -/
def emptyArrayStorage : Storage :=
  setItem emptyStorage "transparentNotes" "[]"

/-- A storage whose saved-notes key holds text that is not JSON, next to a draft. -/
def brokenStorage : Storage :=
  setItem (setItem emptyStorage "lastNote" "draft in progress") "transparentNotes" "\x7boops"

/-- A component holding one saved note, with the draft `"A"` typed. -/
def typingA : AppState :=
  rerender json (onChange "A" { initial emptyStorage with savedNotes := [agendaNote] })

/-- A component whose startup probe was granted a stream with the single track 0. -/
def probeSharing : AppState :=
  checkScreenSharing (some [0]) (initial emptyStorage)

/-! ## Lemmas on strings and storage -/

theorem dropWhile_all_iff (p : Char → Bool) (l : List Char) :
    (∀ x ∈ l.dropWhile p, p x = true) ↔ ∀ x ∈ l, p x = true := by
  constructor
  · intro h
    by_cases hnil : l.dropWhile p = []
    · exact List.dropWhile_eq_nil_iff.mp hnil
    · have hhead := List.head_dropWhile_not p l hnil
      have hmem := h _ (List.head_mem hnil)
      rw [hhead] at hmem
      exact absurd hmem (by decide)
  · intro h x hx
    exact h x ((List.dropWhile_sublist p).subset hx)

/-- The test of `saveNote`, `notes.trim()` being truthy, holds exactly for the
drafts that are not blank. -/
theorem truthy_trim (s : String) : truthy (trim s) = !isBlank s := by
  have key : (trim s).data = [] ↔ ∀ x ∈ s.data, isWhiteSpace x = true := by
    simp only [trim, List.reverse_eq_nil_iff, List.dropWhile_eq_nil_iff, List.mem_reverse]
    exact dropWhile_all_iff isWhiteSpace s.data
  by_cases h : ∀ x ∈ s.data, isWhiteSpace x = true
  · have h1 : (trim s).data = [] := key.mpr h
    have h2 : isBlank s = true := by simpa [isBlank] using h
    simp [truthy, h1, h2]
  · have h1 : (trim s).data ≠ [] := fun e => h (key.mp e)
    have h2 : isBlank s = false := by
      cases hb : isBlank s
      · rfl
      · exact absurd (by simpa [isBlank] using hb) h
    cases hd : (trim s).data with
    | nil => exact absurd hd h1
    | cons a l => simp [truthy, hd, h2]

@[simp] theorem getItem_setItem_same (s : Storage) (k v : String) :
    getItem (setItem s k v) k = some v := by
  simp [getItem, setItem]

@[simp] theorem getItem_removeItem_same (s : Storage) (k : String) :
    getItem (removeItem s k) k = none := by
  simp [getItem, removeItem]

theorem getItem_setItem_other (s : Storage) (k v j : String) (h : j ≠ k) :
    getItem (setItem s k v) j = getItem s j := by
  simp [getItem, setItem, h]

theorem getItem_removeItem_other (s : Storage) (k j : String) (h : j ≠ k) :
    getItem (removeItem s k) j = getItem s j := by
  simp [getItem, removeItem, h]

/-! ## Lemmas on the handlers -/

@[simp] theorem persistEffect_savedNotes (J : JsonApi) (w : AppState) :
    (persistEffect J w).savedNotes = w.savedNotes := by
  unfold persistEffect
  split <;> rfl

@[simp] theorem persistEffect_notes (J : JsonApi) (w : AppState) :
    (persistEffect J w).notes = w.notes := by
  unfold persistEffect
  split <;> rfl

@[simp] theorem rerender_savedNotes (J : JsonApi) (w : AppState) :
    (rerender J w).savedNotes = w.savedNotes := by
  unfold rerender
  split
  · exact persistEffect_savedNotes J w
  · rfl

@[simp] theorem rerender_notes (J : JsonApi) (w : AppState) :
    (rerender J w).notes = w.notes := by
  unfold rerender
  split
  · exact persistEffect_notes J w
  · rfl

theorem saveNote_blank (now : Nat) (stamp : String) (w : AppState)
    (h : isBlank w.notes = true) : saveNote now stamp w = w := by
  simp [saveNote, truthy_trim, h]

theorem saveNote_savedNotes (now : Nat) (stamp : String) (w : AppState)
    (h : isBlank w.notes = false) :
    (saveNote now stamp w).savedNotes =
      { id := now, content := w.notes, timestamp := stamp } :: w.savedNotes.take 9 := by
  simp [saveNote, truthy_trim, h, setSavedNotes]

theorem saveNote_length_le (now : Nat) (stamp : String) (w : AppState)
    (h : isBlank w.notes = false) : (saveNote now stamp w).savedNotes.length ≤ 10 := by
  rw [saveNote_savedNotes now stamp w h]
  simp only [List.length_cons, List.length_take]
  omega

theorem saveStep_savedNotes (J : JsonApi) (w : AppState) (s : SaveStep)
    (h : isBlank s.draft = false) :
    (saveStep J w s).savedNotes = s.note :: w.savedNotes.take 9 := by
  have hn : (rerender J (onChange s.draft w)).notes = s.draft := by
    simp [onChange, setNotes]
  have hs : (rerender J (onChange s.draft w)).savedNotes = w.savedNotes := by
    simp [onChange, setNotes]
  unfold saveStep
  rw [rerender_savedNotes, saveNote_savedNotes _ _ _ (by rw [hn]; exact h), hn, hs]
  rfl

theorem saveStep_length_le (J : JsonApi) (w : AppState) (s : SaveStep)
    (h : w.savedNotes.length ≤ 10) : (saveStep J w s).savedNotes.length ≤ 10 := by
  have hn : (rerender J (onChange s.draft w)).notes = s.draft := by
    simp [onChange, setNotes]
  have hs : (rerender J (onChange s.draft w)).savedNotes = w.savedNotes := by
    simp [onChange, setNotes]
  cases hb : isBlank s.draft
  · rw [saveStep_savedNotes J w s hb]
    simp only [List.length_cons, List.length_take]
    omega
  · unfold saveStep
    rw [rerender_savedNotes, saveNote_blank _ _ _ (by rw [hn]; exact hb), hs]
    exact h

theorem runSaves_length_le (J : JsonApi) (steps : List SaveStep) (w : AppState)
    (h : w.savedNotes.length ≤ 10) : (runSaves J steps w).savedNotes.length ≤ 10 := by
  induction steps generalizing w with
  | nil => exact h
  | cons s rest ih => exact ih (saveStep J w s) (saveStep_length_le J w s h)

theorem take_append_cons_take (n : Nat) (A L : List Note) (x : Note) :
    (A ++ x :: L.take n).take (n + 1) = (A ++ x :: L).take (n + 1) := by
  rw [List.take_append_eq_append_take, List.take_append_eq_append_take]
  congr 1
  cases hj : n + 1 - A.length with
  | zero => simp
  | succ j =>
    have hjn : min j n = j := by omega
    simp [List.take_take, hjn]

theorem runSaves_savedNotes (J : JsonApi) (steps : List SaveStep) (w : AppState)
    (hw : w.savedNotes.length ≤ 10) (h : ∀ s ∈ steps, isBlank s.draft = false) :
    (runSaves J steps w).savedNotes =
      (steps.reverse.map SaveStep.note ++ w.savedNotes).take 10 := by
  induction steps generalizing w with
  | nil => simp [runSaves, List.take_of_length_le hw]
  | cons s rest ih =>
    have hs : isBlank s.draft = false := h s (List.mem_cons_self _ _)
    have hrest : ∀ t ∈ rest, isBlank t.draft = false :=
      fun t ht => h t (List.mem_cons_of_mem _ ht)
    have step := saveStep_savedNotes J w s hs
    have ih1 := ih (saveStep J w s) (saveStep_length_le J w s hw) hrest
    show (runSaves J rest (saveStep J w s)).savedNotes = _
    rw [ih1, step, List.reverse_cons, List.map_append, List.append_assoc]
    exact take_append_cons_take 9 _ _ _

/-! ## Lemmas on the effects -/

/-- The first half of the mount effect as a total function: the exception of
`JSON.parse` is caught. -/
theorem loadSavedNotes_eq (J : JsonApi) (w : AppState) :
    loadSavedNotes J w = Except.ok
      (match getItem w.storage "transparentNotes" with
       | some saved =>
         if truthy saved then
           match J.parse saved with
           | Except.ok parsed => setSavedNotes parsed w
           | Except.error _ => w
         else w
       | none => w) := by
  unfold loadSavedNotes
  cases getItem w.storage "transparentNotes" with
  | none => rfl
  | some saved =>
    by_cases ht : truthy saved = true
    · cases hp : J.parse saved <;>
        simp [ht, hp, tryCatch, tryCatchThe, MonadExceptOf.tryCatch, Except.tryCatch, bind,
          Except.bind, pure, Except.pure]
    · simp [ht, pure, Except.pure]

theorem loadEffect_of_loadSavedNotes (J : JsonApi) (w v : AppState)
    (h : loadSavedNotes J w = Except.ok v) :
    loadEffect J w = Except.ok (loadLastNote v) := by
  simp [loadEffect, h, bind, Except.bind, pure, Except.pure]

@[simp] theorem loadLastNote_savedNotes (w : AppState) :
    (loadLastNote w).savedNotes = w.savedNotes := by
  unfold loadLastNote
  split
  · split <;> rfl
  · rfl

@[simp] theorem loadLastNote_storage (w : AppState) :
    (loadLastNote w).storage = w.storage := by
  unfold loadLastNote
  split
  · split <;> rfl
  · rfl

theorem eq_empty_of_not_truthy (s : String) (h : ¬ truthy s = true) : s = "" := by
  cases s with
  | mk data =>
    cases data with
    | nil => rfl
    | cons a l => simp [truthy] at h

/-- With the initial draft `''`, the second half of the mount effect leaves the
persisted draft in the textarea (the empty text when the key is absent). -/
theorem loadLastNote_notes (w : AppState) (h : w.notes = "") :
    (loadLastNote w).notes = persistedDraft w := by
  unfold loadLastNote persistedDraft
  cases hl : getItem w.storage "lastNote" with
  | none => simpa using h
  | some l =>
    by_cases ht : truthy l = true
    · simp [ht, setNotes]
    · have e := eq_empty_of_not_truthy l ht
      subst e
      have hf : truthy "" = false := rfl
      simp [hf, h]

theorem trackEnded_keeps_false (t : Nat) (w : AppState) (h : w.isSharingScreen = false) :
    (trackEnded t w).isSharingScreen = false := by
  unfold trackEnded
  split <;> first | rfl | exact h

theorem tracksEnded_keeps_false (ts : List Nat) (w : AppState)
    (h : w.isSharingScreen = false) : (tracksEnded ts w).isSharingScreen = false := by
  induction ts generalizing w with
  | nil => exact h
  | cons t rest ih => exact ih (trackEnded t w) (trackEnded_keeps_false t w h)

/-- The textarea handler writes the draft through. -/
theorem onChange_persists (value : String) (w : AppState) :
    persistedDraft (onChange value w) = (onChange value w).notes := by
  simp [persistedDraft, onChange, setNotes]

/-- A confirmed `clearNotes` removes the persisted draft with the draft. -/
theorem clearNotes_persists (w : AppState) :
    persistedDraft (clearNotes true w) = (clearNotes true w).notes := by
  simp [persistedDraft, clearNotes, setNotes]

/-- A save that inserts a note persists the draft. -/
theorem saveNote_persists (now : Nat) (stamp : String) (w : AppState)
    (h : isBlank w.notes = false) :
    persistedDraft (saveNote now stamp w) = (saveNote now stamp w).notes := by
  simp [persistedDraft, saveNote, truthy_trim, h, setSavedNotes]

/-! ## The concrete `JSON` reads back what it writes -/

theorem expect_append (l rest : List Char) : expect l (l ++ rest) = some rest := by
  induction l with
  | nil => cases rest <;> rfl
  | cons a l ih => simp [expect, ih]

theorem hexValue_hexDigit (n : Nat) (h : n < 16) : hexValue (hexDigit n) = some n := by
  interval_cases n <;> decide

theorem readChars_cons (acc : List Char) (c : Char) (cs : List Char) :
    readChars acc (c :: cs) =
    if c = dquote then some (acc.reverse, cs)
    else if c = bslash then
      match cs with
      | [] => none
      | e :: rest =>
        if e = dquote then readChars (dquote :: acc) rest
        else if e = bslash then readChars (bslash :: acc) rest
        else if e = '/' then readChars ('/' :: acc) rest
        else if e = 'b' then readChars (Char.ofNat 8 :: acc) rest
        else if e = 't' then readChars (Char.ofNat 9 :: acc) rest
        else if e = 'n' then readChars (Char.ofNat 10 :: acc) rest
        else if e = 'f' then readChars (Char.ofNat 12 :: acc) rest
        else if e = 'r' then readChars (Char.ofNat 13 :: acc) rest
        else if e = 'u' then
          match rest with
          | a :: b :: c :: d :: rest4 =>
            match hexValue a, hexValue b, hexValue c, hexValue d with
            | some x, some y, some z, some v =>
              readChars (Char.ofNat (((x * 16 + y) * 16 + z) * 16 + v) :: acc) rest4
            | _, _, _, _ => none
          | _ => none
        else none
    else if c.toNat < 32 then none
    else readChars (c :: acc) cs := by
  rw [readChars.eq_def]

theorem char_of_toNat (c : Char) (n : Nat) (h : c.toNat = n) : Char.ofNat n = c := by
  rw [← h, Char.ofNat_toNat]

theorem readChars_quoteChar (c : Char) (acc tail : List Char) :
    readChars acc (quoteChar c ++ tail) = readChars (c :: acc) tail := by
  unfold quoteChar
  by_cases h1 : c = dquote
  · subst h1
    have e1 : ¬ (bslash = dquote) := by decide
    simp [readChars_cons, e1]
  by_cases h2 : c = bslash
  · subst h2
    have e1 : ¬ (bslash = dquote) := by decide
    simp [readChars_cons, e1]
  by_cases h3 : c.toNat = 8
  · have hc : c = Char.ofNat 8 := (char_of_toNat c 8 h3).symm
    subst hc
    simp +decide [readChars_cons]
  by_cases h4 : c.toNat = 9
  · have hc : c = Char.ofNat 9 := (char_of_toNat c 9 h4).symm
    subst hc
    simp +decide [readChars_cons]
  by_cases h5 : c.toNat = 10
  · have hc : c = Char.ofNat 10 := (char_of_toNat c 10 h5).symm
    subst hc
    simp +decide [readChars_cons]
  by_cases h6 : c.toNat = 12
  · have hc : c = Char.ofNat 12 := (char_of_toNat c 12 h6).symm
    subst hc
    simp +decide [readChars_cons]
  by_cases h7 : c.toNat = 13
  · have hc : c = Char.ofNat 13 := (char_of_toNat c 13 h7).symm
    subst hc
    simp +decide [readChars_cons]
  by_cases h8 : c.toNat < 32
  · have ha : c.toNat / 16 < 16 := by omega
    have hb : c.toNat % 16 < 16 := by omega
    have hz : hexValue '0' = some 0 := by decide
    have hv : c.toNat / 16 * 16 + c.toNat % 16 = c.toNat := by omega
    have e1 : ¬ (bslash = dquote) := by decide
    have e2 : ¬ ('u' = dquote) := by decide
    have e3 : ¬ ('u' = bslash) := by decide
    simp +decide [h1, h2, h3, h4, h5, h6, h7, h8, readChars_cons, e1, e2, e3, hz,
      hexValue_hexDigit _ ha, hexValue_hexDigit _ hb]
    rw [hv, Char.ofNat_toNat]
  · simp [h1, h2, h3, h4, h5, h6, h7, h8, readChars_cons]

theorem readChars_quoted (s acc tail : List Char) :
    readChars acc (s.flatMap quoteChar ++ dquote :: tail) = some (acc.reverse ++ s, tail) := by
  induction s generalizing acc with
  | nil => simp [readChars_cons]
  | cons c s ih =>
    rw [List.flatMap_cons, List.append_assoc, readChars_quoteChar, ih]
    simp

theorem readString_quoteString (s : String) (tail : List Char) :
    readString (quoteString s ++ tail) = some (s, tail) := by
  simp [readString, quoteString, readChars_quoted]

theorem digitChar_isDigit (m : Nat) (h : m < 10) :
    (Nat.digitChar m).isDigit = true ∧ (Nat.digitChar m).toNat - 48 = m := by
  interval_cases m <;> decide

/-- The decimal digits written for `n`, followed by anything, read back as `n`. -/
theorem toDigitsCore_spec (fuel n : Nat) (ds : List Char) (h : n < fuel) :
    ∃ pre, Nat.toDigitsCore 10 fuel n ds = pre ++ ds ∧ pre ≠ [] ∧
      (∀ c ∈ pre, c.isDigit = true) ∧
      ∀ k, pre.foldl (fun a d => 10 * a + (d.toNat - 48)) k = k * 10 ^ pre.length + n := by
  induction fuel generalizing n ds with
  | zero => omega
  | succ fuel ih =>
    have hd := digitChar_isDigit (n % 10) (Nat.mod_lt _ (by decide))
    by_cases h0 : n / 10 = 0
    · refine ⟨[Nat.digitChar (n % 10)], ?_, by simp, ?_, ?_⟩
      · simp [Nat.toDigitsCore, h0]
      · intro c hc
        simp at hc
        rw [hc]; exact hd.1
      · intro k
        simp [hd.2]
        omega
    · obtain ⟨pre, hp, hne, hdig, hval⟩ := ih (n / 10) (Nat.digitChar (n % 10) :: ds) (by omega)
      refine ⟨pre ++ [Nat.digitChar (n % 10)], ?_, by simp, ?_, ?_⟩
      · simp [Nat.toDigitsCore, h0, hp]
      · intro c hc
        rcases List.mem_append.mp hc with hc | hc
        · exact hdig c hc
        · simp at hc
          rw [hc]; exact hd.1
      · intro k
        rw [List.foldl_append, hval k]
        simp [hd.2, pow_succ]
        have := Nat.div_add_mod n 10
        nlinarith

theorem readNat_toDigits (n : Nat) (c : Char) (rest : List Char) (hc : c.isDigit = false) :
    readNat (Nat.toDigits 10 n ++ c :: rest) = some (n, c :: rest) := by
  obtain ⟨pre, hp, hne, hdig, hval⟩ := toDigitsCore_spec (n + 1) n [] (Nat.lt_succ_self n)
  have hpre : Nat.toDigits 10 n = pre := by
    simpa [Nat.toDigits] using hp
  have ht : (pre ++ c :: rest).takeWhile Char.isDigit = pre := by
    rw [List.takeWhile_append_of_pos hdig]
    simp [List.takeWhile, hc]
  have hdr : (pre ++ c :: rest).dropWhile Char.isDigit = c :: rest := by
    rw [List.dropWhile_append_of_pos hdig]
    simp [List.dropWhile, hc]
  have he : pre.isEmpty = false := by
    cases pre with
    | nil => exact absurd rfl hne
    | cons a l => rfl
  simp [readNat, hpre, ht, hdr, he, hval 0]

theorem readNote_noteText (n : Note) (tail : List Char) :
    readNote (noteText n ++ tail) = some (n, tail) := by
  unfold readNote noteText
  simp only [List.append_assoc, expect_append, Option.bind_eq_bind, Option.some_bind]
  have hcomma : (",\"content\":".data ++ (quoteString n.content ++ (",\"timestamp\":".data ++
      (quoteString n.timestamp ++ ("\x7d".data ++ tail))))) =
      ',' :: ("\"content\":".data ++ (quoteString n.content ++ (",\"timestamp\":".data ++
      (quoteString n.timestamp ++ ("\x7d".data ++ tail))))) := rfl
  rw [hcomma, readNat_toDigits _ _ _ (by decide), ← hcomma]
  simp +decide [expect, readString_quoteString]

theorem readMore_moreText (list : List Note) (fuel : Nat) (h : list.length < fuel) :
    readMore fuel (moreText list) = some list := by
  induction list generalizing fuel with
  | nil =>
    cases fuel with
    | zero => omega
    | succ f => simp [moreText, readMore]
  | cons n rest ih =>
    cases fuel with
    | zero => omega
    | succ f =>
      have hr := ih f (by simpa using h)
      have e1 : ¬ (',' = ']') := by decide
      simp [moreText, readMore, e1, readNote_noteText, hr]

theorem length_lt_moreText (list : List Note) : list.length < (moreText list).length := by
  induction list with
  | nil => simp [moreText]
  | cons n rest ih =>
    simp [moreText]
    omega

/-- The concrete `JSON` reads back every array of notes it writes. -/
theorem parseNotes_stringifyNotes (list : List Note) :
    parseNotes (stringifyNotes list) = Except.ok list := by
  cases list with
  | nil => rfl
  | cons n rest =>
    have hb : noteText n ++ moreText rest =
        Char.ofNat 123 :: ("\"id\":".data ++ (Nat.toDigits 10 n.id ++ (",\"content\":".data ++
          (quoteString n.content ++ (",\"timestamp\":".data ++
            (quoteString n.timestamp ++ "\x7d".data))))) ++ moreText rest) := by
      simp [noteText]
    have hr : readNotes ('[' :: (noteText n ++ moreText rest)) =
        (match readNote (noteText n ++ moreText rest) with
         | some (n, rest1) => (readMore rest1.length rest1).map (fun ns => n :: ns)
         | none => none) := by
      rw [hb]
      rfl
    simp [parseNotes, stringifyNotes, hr, readNote_noteText,
      readMore_moreText rest _ (length_lt_moreText rest)]

/-- What the concrete `JSON` writes is never the empty text. -/
theorem truthy_stringifyNotes (list : List Note) : truthy (stringifyNotes list) = true := by
  cases list <;> rfl

/-- The persistence effect followed by the mount effect of the next session, for
any `JSON` that reads back what it wrote for `list`. -/
theorem persist_then_load (J : JsonApi) (list : List Note) (w : AppState)
    (hne : list ≠ [] ∨ getItem w.storage "transparentNotes" = none)
    (hp : J.parse (J.stringify list) = Except.ok list)
    (ht : truthy (J.stringify list) = true) :
    loadNotes J (saveNotes J list w).storage = Except.ok list := by
  cases list with
  | nil =>
    have hk : getItem w.storage "transparentNotes" = none := by
      rcases hne with h | h
      · exact absurd rfl h
      · exact h
    have hs : loadSavedNotes J (initial (saveNotes J [] w).storage) =
        Except.ok (initial (saveNotes J [] w).storage) := by
      rw [loadSavedNotes_eq]
      have : getItem (initial (saveNotes J [] w).storage).storage "transparentNotes" = none := hk
      rw [this]
    unfold loadNotes
    rw [loadEffect_of_loadSavedNotes _ _ _ hs]
    simp [Except.map, initial]
  | cons n ns =>
    have hk : getItem (initial (saveNotes J (n :: ns) w).storage).storage "transparentNotes" =
        some (J.stringify (n :: ns)) := by
      simp [saveNotes, persistEffect, initial]
    have hs : loadSavedNotes J (initial (saveNotes J (n :: ns) w).storage) =
        Except.ok (setSavedNotes (n :: ns) (initial (saveNotes J (n :: ns) w).storage)) := by
      rw [loadSavedNotes_eq, hk]
      simp [ht, hp]
    unfold loadNotes
    rw [loadEffect_of_loadSavedNotes _ _ _ hs]
    simp [Except.map, setSavedNotes]

/-- The list the mount effect leaves in the component, read off the storage:
the parsed list when the key holds a non-empty text that parses, the initial
empty list otherwise. -/
theorem loadNotes_eq (J : JsonApi) (storage : Storage) :
    loadNotes J storage = Except.ok
      (match getItem storage "transparentNotes" with
       | some saved =>
         if truthy saved then
           match J.parse saved with
           | Except.ok parsed => parsed
           | Except.error _ => []
         else []
       | none => []) := by
  have hs := loadSavedNotes_eq J (initial storage)
  unfold loadNotes
  rw [loadEffect_of_loadSavedNotes _ _ _ hs]
  have hk : (initial storage).storage = storage := rfl
  rw [hk]
  cases getItem storage "transparentNotes" with
  | none => simp [Except.map, initial]
  | some saved =>
    by_cases ht : truthy saved = true
    · cases hp : J.parse saved <;> simp [Except.map, ht, hp, initial, setSavedNotes]
    · simp [Except.map, ht, initial]

/-! ## The claims -/

/-- C1: starting from an empty note list, after every sequence of saves (with
arbitrary drafts, blank or not) the list has at most 10 entries; and a save that
inserts a note (the draft is not blank) leaves at most 10 entries whatever the
length of the list before it. -/
theorem save_length_le_ten (J : JsonApi) (w0 : AppState) (steps : List SaveStep)
    (w : AppState) (now : Nat) (stamp : String)
    (h0 : w0.savedNotes = []) (h : isBlank w.notes = false) :
    (runSaves J steps w0).savedNotes.length ≤ 10 ∧
    (saveNote now stamp w).savedNotes.length ≤ 10 ∧
    (rerender J (saveNote now stamp w)).savedNotes.length ≤ 10 := by
  refine ⟨runSaves_length_le J steps w0 (by simp [h0]), saveNote_length_le now stamp w h, ?_⟩
  rw [rerender_savedNotes]
  exact saveNote_length_le now stamp w h

/-- Witness of C1: eleven saves from the empty component, and one save into a
list of twelve notes. -/
theorem save_length_le_ten_witness :
    (initial emptyStorage).savedNotes = [] ∧ isBlank crowded.notes = false ∧
    crowded.savedNotes.length = 12 ∧
    (runSaves json elevenSaves (initial emptyStorage)).savedNotes.length ≤ 10 ∧
    (saveNote 5 "t" crowded).savedNotes.length ≤ 10 :=
  have h := save_length_le_ten json (initial emptyStorage) elevenSaves crowded 5 "t" rfl
    (by decide)
  ⟨rfl, by decide, by decide, h.1, h.2.1⟩

/-- C2: after saving the non-blank drafts `d1..dn` in order from an empty note
list, the list holds exactly the notes of the last `min n 10` saves, most recent
first; after 11 saves it has length 10 and holds saves 11 down to 2. -/
theorem saves_keep_last_ten (J : JsonApi) (w0 : AppState) (steps : List SaveStep)
    (h0 : w0.savedNotes = []) (h : ∀ s ∈ steps, isBlank s.draft = false) :
    (runSaves J steps w0).savedNotes = (steps.reverse.take 10).map SaveStep.note ∧
    (runSaves J steps w0).savedNotes.map Note.content =
      (steps.map SaveStep.draft).reverse.take (min steps.length 10) ∧
    (steps.length = 11 →
      (runSaves J steps w0).savedNotes.length = 10 ∧
      (runSaves J steps w0).savedNotes.map Note.content =
        ((steps.drop 1).map SaveStep.draft).reverse) := by
  have key : (runSaves J steps w0).savedNotes = (steps.reverse.take 10).map SaveStep.note := by
    rw [runSaves_savedNotes J steps w0 (by simp [h0]) h, h0, List.append_nil, List.map_take]
  have hc : ∀ l : List SaveStep, l.map (fun s => s.note.content) = l.map SaveStep.draft :=
    fun l => rfl
  refine ⟨key, ?_, ?_⟩
  · rw [key, List.map_map]
    have : (Note.content ∘ SaveStep.note) = SaveStep.draft := rfl
    rw [this, List.map_take, List.map_reverse]
    by_cases hl : steps.length ≤ 10
    · rw [min_eq_left hl, List.take_of_length_le (by simp [hl]),
        List.take_of_length_le (by simp)]
    · rw [min_eq_right (by omega)]
  · intro h11
    rw [key]
    refine ⟨by simp [h11], ?_⟩
    rw [List.map_map]
    have : (Note.content ∘ SaveStep.note) = SaveStep.draft := rfl
    rw [this, List.map_take, List.map_reverse, List.map_drop, List.reverse_drop]
    simp [h11]

/-- Witness of C2: the drafts `d1..d11` leave `d11` down to `d2`. -/
theorem saves_keep_last_ten_witness :
    (runSaves json elevenSaves (initial emptyStorage)).savedNotes.length = 10 ∧
    (runSaves json elevenSaves (initial emptyStorage)).savedNotes.map Note.content =
      ["d11", "d10", "d9", "d8", "d7", "d6", "d5", "d4", "d3", "d2"] :=
  have h := (saves_keep_last_ten json (initial emptyStorage) elevenSaves rfl
    (by decide)).2.2 (by decide)
  ⟨h.1, h.2.trans (by decide)⟩

/-- C3: when the draft is empty or only white space, `saveNote` changes nothing:
the note list, the persisted saved notes and the persisted draft are as before,
and no persistence effect is due. -/
theorem save_blank_noop (J : JsonApi) (now : Nat) (stamp : String) (w : AppState)
    (h : isBlank w.notes = true) :
    saveNote now stamp w = w ∧
    (saveNote now stamp w).savedNotes = w.savedNotes ∧
    getItem (saveNote now stamp w).storage "transparentNotes" =
      getItem w.storage "transparentNotes" ∧
    getItem (saveNote now stamp w).storage "lastNote" = getItem w.storage "lastNote" ∧
    (w.savedNotesSet = false → rerender J (saveNote now stamp w) = w) := by
  have e := saveNote_blank now stamp w h
  rw [e]
  refine ⟨rfl, rfl, rfl, rfl, ?_⟩
  intro hs
  simp [rerender, hs]

/-- Witness of C3: after "meeting agenda" was saved, a save with the empty draft
leaves the list at length 1. -/
theorem save_blank_noop_witness :
    isBlank afterAgenda.notes = true ∧ afterAgenda.savedNotes = [agendaNote] ∧
    saveNote 1700000000001 "later" afterAgenda = afterAgenda ∧
    (saveNote 1700000000001 "later" afterAgenda).savedNotes.length = 1 :=
  have h := save_blank_noop json 1700000000001 "later" afterAgenda (by decide)
  ⟨by decide, by decide, h.1, by rw [h.1]; decide⟩

/-- C4 (counterexample): with the empty list the persistence effect writes
nothing, so a note list left under the saved-notes key by an earlier session is
what `loadNotes` returns, not the empty list. -/
theorem saveNotes_empty_counterexample :
    json.parse (json.stringify []) = Except.ok [] ∧
    getItem oneNoteStorage "transparentNotes" = some (json.stringify [agendaNote]) ∧
    json.parse (json.stringify [agendaNote]) = Except.ok [agendaNote] ∧
    loadNotes json (saveNotes json [] (initial oneNoteStorage)).storage =
      Except.ok [agendaNote] ∧
    loadNotes json (saveNotes json [] (initial oneNoteStorage)).storage ≠ Except.ok [] := by
  refine ⟨rfl, rfl, rfl, rfl, ?_⟩
  have h : loadNotes json (saveNotes json [] (initial oneNoteStorage)).storage =
      Except.ok [agendaNote] := rfl
  rw [h]
  simp

/-- C4 (amended): for every non-empty list and every prior content of the
saved-notes key, `saveNotes(list)` followed by `loadNotes()` returns `list`, for
every `JSON` that reads back what it wrote for `list` and, with no such
assumption, for the concrete `JSON` above.  For the empty list `saveNotes`
writes nothing: the key keeps its prior content, whatever it is, and
`loadNotes()` returns what that content holds, the empty list when the key is
absent or holds an empty list, the list stored before when it holds one. -/
theorem saveNotes_loadNotes (J : JsonApi) (list : List Note) (w : AppState) :
    (list ≠ [] → J.parse (J.stringify list) = Except.ok list →
      truthy (J.stringify list) = true →
      loadNotes J (saveNotes J list w).storage = Except.ok list) ∧
    (saveNotes J [] w).storage = w.storage ∧
    loadNotes J (saveNotes J [] w).storage = loadNotes J w.storage ∧
    (getItem w.storage "transparentNotes" = none →
      loadNotes J (saveNotes J [] w).storage = Except.ok []) ∧
    (∀ saved, getItem w.storage "transparentNotes" = some saved →
      J.parse saved = Except.ok [] →
      loadNotes J (saveNotes J [] w).storage = Except.ok []) ∧
    (∀ saved prior, getItem w.storage "transparentNotes" = some saved →
      truthy saved = true → J.parse saved = Except.ok prior →
      loadNotes J (saveNotes J [] w).storage = Except.ok prior) ∧
    (list ≠ [] → loadNotes json (saveNotes json list w).storage = Except.ok list) := by
  have hst : (saveNotes J [] w).storage = w.storage := rfl
  refine ⟨?_, hst, by rw [hst], ?_, ?_, ?_, ?_⟩
  · intro hne hp ht
    exact persist_then_load J list w (Or.inl hne) hp ht
  · intro hk
    rw [hst, loadNotes_eq, hk]
  · intro saved hk hp
    rw [hst, loadNotes_eq, hk]
    by_cases ht : truthy saved = true
    · simp [ht, hp]
    · simp [ht]
  · intro saved prior hk ht hp
    rw [hst, loadNotes_eq, hk]
    simp [ht, hp]
  · intro hne
    exact persist_then_load json list w (Or.inl hne) (parseNotes_stringifyNotes list)
      (truthy_stringifyNotes list)

/-- Witness of C4: one note written over an older stored text and read back, and
the empty list saved over a stored empty array. -/
theorem saveNotes_loadNotes_witness :
    loadNotes json
      (saveNotes json [agendaNote] (initial brokenStorage)).storage = Except.ok [agendaNote] ∧
    getItem (initial emptyArrayStorage).storage "transparentNotes" = some "[]" ∧
    loadNotes json (saveNotes json [] (initial emptyArrayStorage)).storage = Except.ok [] ∧
    loadNotes json (saveNotes json [] (initial oneNoteStorage)).storage =
      Except.ok [agendaNote] :=
  ⟨(saveNotes_loadNotes json [agendaNote] (initial brokenStorage)).1 (by decide) rfl
      (by decide),
    rfl,
    (saveNotes_loadNotes json [] (initial emptyArrayStorage)).2.2.2.2.1 "[]" rfl rfl,
    (saveNotes_loadNotes json [] (initial oneNoteStorage)).2.2.2.2.2.1
      (json.stringify [agendaNote]) [agendaNote] rfl (by decide) rfl⟩

/-- C5: when the stored saved-notes value is not valid JSON text (`JSON.parse`
throws on it), the mount effect completes without an exception, the note list
after it is empty, and the draft is loaded from its own key. -/
theorem load_malformed (J : JsonApi) (storage : Storage) (saved : String)
    (hk : getItem storage "transparentNotes" = some saved)
    (hbad : ∀ list, J.parse saved ≠ Except.ok list) :
    ∃ v, loadEffect J (initial storage) = Except.ok v ∧ v.savedNotes = [] ∧
      v.notes = (getItem storage "lastNote").getD "" ∧
      loadNotes J storage = Except.ok [] ∧
      loadDraft J storage = Except.ok ((getItem storage "lastNote").getD "") := by
  have hs : loadSavedNotes J (initial storage) = Except.ok (initial storage) := by
    rw [loadSavedNotes_eq]
    have hk1 : getItem (initial storage).storage "transparentNotes" = some saved := hk
    rw [hk1]
    by_cases ht : truthy saved = true
    · cases hp : J.parse saved with
      | ok list => exact absurd hp (hbad list)
      | error e => simp [ht, hp]
    · simp [ht]
  have he := loadEffect_of_loadSavedNotes J _ _ hs
  have hn : (loadLastNote (initial storage)).notes = (getItem storage "lastNote").getD "" :=
    loadLastNote_notes (initial storage) rfl
  refine ⟨loadLastNote (initial storage), he, ?_, hn, ?_, ?_⟩
  · simp [initial]
  · unfold loadNotes
    rw [he]
    simp [Except.map, initial]
  · unfold loadDraft
    rw [he]
    simp [Except.map, hn]

/-- Witness of C5: the stored text `{oops` next to a stored draft. -/
theorem load_malformed_witness :
    getItem brokenStorage "transparentNotes" = some "\x7boops" ∧
    loadNotes json brokenStorage = Except.ok [] ∧
    loadDraft json brokenStorage = Except.ok "draft in progress" :=
  have h := load_malformed json brokenStorage "\x7boops" rfl
    (fun list hl => by simp [json, parseNotes, readNotes] at hl)
  ⟨rfl, h.choose_spec.2.2.2.1, h.choose_spec.2.2.2.2⟩

/-- C6: `clearAllSaved` with the confirmation declined changes nothing; with the
confirmation given the note list is empty and the saved-notes key is absent, and
both remain so after the render and the persistence effect that follow. -/
theorem clearAllSaved_removes_key (J : JsonApi) (w : AppState) :
    clearAllSaved false w = w ∧
    (clearAllSaved true w).savedNotes = [] ∧
    getItem (clearAllSaved true w).storage "transparentNotes" = none ∧
    (clearAllSaved true w).savedNotesSet = true ∧
    (rerender J (clearAllSaved true w)).savedNotes = [] ∧
    getItem (rerender J (clearAllSaved true w)).storage "transparentNotes" = none ∧
    (persistEffect J (clearAllSaved true w)).storage = (clearAllSaved true w).storage := by
  simp [clearAllSaved, setSavedNotes, rerender, persistEffect]

/-- C7: loading a note of the list puts exactly its content in the draft and
leaves the note list as it was, also after the render that follows. -/
theorem load_keeps_list (J : JsonApi) (w : AppState) (note : Note)
    (h : note ∈ w.savedNotes) :
    (clickLoad note w).notes = note.content ∧
    (clickLoad note w).savedNotes = w.savedNotes ∧
    (clickLoad note w).savedNotes.length = w.savedNotes.length ∧
    note ∈ (clickLoad note w).savedNotes ∧
    (rerender J (clickLoad note w)).savedNotes = w.savedNotes ∧
    (rerender J (clickLoad note w)).notes = note.content := by
  have e : (clickLoad note w).savedNotes = w.savedNotes := rfl
  refine ⟨rfl, e, by rw [e], by rw [e]; exact h, ?_, ?_⟩
  · rw [rerender_savedNotes, e]
  · rw [rerender_notes]; rfl

/-- Witness of C7: the saved note is loaded over the draft `"A"`. -/
theorem load_keeps_list_witness :
    agendaNote ∈ typingA.savedNotes ∧ typingA.notes = "A" ∧
    (clickLoad agendaNote typingA).notes = "meeting agenda" ∧
    (clickLoad agendaNote typingA).savedNotes = typingA.savedNotes :=
  have h := load_keeps_list json typingA agendaNote (by decide)
  ⟨by decide, by decide, h.1, h.2.1⟩

/-- C8 (counterexample): on a granted stream with the tracks 0 and 1, the ended
event of track 0 alone turns the signal off, on the Detect path and on the
startup path, although track 1 has not ended. -/
theorem one_track_ended_counterexample :
    (startScreenShareDetection (some [0, 1]) (initial emptyStorage)).isSharingScreen = true ∧
    (trackEnded 0
      (startScreenShareDetection (some [0, 1]) (initial emptyStorage))).isSharingScreen = false ∧
    (checkScreenSharing (some [0, 1]) (initial emptyStorage)).isSharingScreen = true ∧
    (trackEnded 0
      (checkScreenSharing (some [0, 1]) (initial emptyStorage))).isSharingScreen = false := by
  decide

/-- C8 (amended): after a stream is granted the signal is Sharing, and the ended
event of any one track of that stream turns it to NotSharing, whether or not
other tracks are still live; it stays NotSharing through every further ended
event. -/
theorem any_track_ended_stops_sharing (w : AppState) (tracks : List Nat) (t : Nat)
    (more : List Nat) (h : t ∈ tracks) :
    (startScreenShareDetection (some tracks) w).isSharingScreen = true ∧
    (trackEnded t (startScreenShareDetection (some tracks) w)).isSharingScreen = false ∧
    (tracksEnded more
      (trackEnded t (startScreenShareDetection (some tracks) w))).isSharingScreen = false ∧
    (checkScreenSharing (some tracks) w).isSharingScreen = true ∧
    (trackEnded t (checkScreenSharing (some tracks) w)).isSharingScreen = false ∧
    (tracksEnded more
      (trackEnded t (checkScreenSharing (some tracks) w))).isSharingScreen = false := by
  have h1 : (trackEnded t (startScreenShareDetection (some tracks) w)).isSharingScreen = false := by
    simp [trackEnded, startScreenShareDetection, h]
  have h2 : (trackEnded t (checkScreenSharing (some tracks) w)).isSharingScreen = false := by
    simp [trackEnded, checkScreenSharing, h]
  exact ⟨rfl, h1, tracksEnded_keeps_false more _ h1, rfl, h2, tracksEnded_keeps_false more _ h2⟩

/-- Witness of C8: tracks 0 and 1, track 1 ends first, then track 0. -/
theorem any_track_ended_stops_sharing_witness :
    (trackEnded 1
      (startScreenShareDetection (some [0, 1]) (initial emptyStorage))).isSharingScreen = false ∧
    (tracksEnded [0]
      (trackEnded 1
        (startScreenShareDetection (some [0, 1]) (initial emptyStorage)))).isSharingScreen =
      false :=
  have h := any_track_ended_stops_sharing (initial emptyStorage) [0, 1] 1 [0] (by decide)
  ⟨h.2.1, h.2.2.1⟩

/-- C9 (the code at the failing input): while the startup probe's stream is
live the signal is Sharing; a denied Detect request leaves it Sharing, where the
same denial in `checkScreenSharing` sets it to NotSharing. -/
theorem detect_denied_keeps_sharing :
    probeSharing.isSharingScreen = true ∧
    (startScreenShareDetection none probeSharing).isSharingScreen = true ∧
    (checkScreenSharing none probeSharing).isSharingScreen = false := by
  decide

/-- C10 (the code at the failing input): with the draft `"A"` typed and
persisted, loading a saved note changes the draft and not its persisted copy, so
the next startup restores `"A"`. -/
theorem load_leaves_persisted_draft :
    typingA.notes = "A" ∧ persistedDraft typingA = "A" ∧
    (rerender json (clickLoad agendaNote typingA)).notes = "meeting agenda" ∧
    persistedDraft (rerender json (clickLoad agendaNote typingA)) = "A" ∧
    loadDraft json (rerender json (clickLoad agendaNote typingA)).storage = Except.ok "A" := by
  refine ⟨by decide, by decide, by decide, by decide, rfl⟩

end TransparentNotes
